import Mathlib

/-!
Verification of the CANDELA governance middleware against its specification.

The development shallowly embeds the core of the repository:

* `src/directive_validation.py` — the schema-driven rule engine
  (`validate_output`, `_luhn_ok`, `_find_luhn_cards`, `canonical_ruleset_sha256`);
* `src/guardian_runtime.py` — the verdict-building logic of `guardian_chat`;
* `src/anchor_outputs.py` — `_merkle_root`, `_append_anchor_entry`, and the
  state transition of the anchoring pass `main`;
* `src/verify_output.py` — `merkle_root_and_proof`, `leaf_hash`;
* `tests/test_merkle_proof.py` — `_verify_proof`.

Modelling conventions:

* SHA-256 (the external `hashlib` library) is treated as an injected
  parameter `H : List Nat → List Nat` over byte lists; none of the verified
  properties depend on the concrete compression function.
* Python's `re` module (an external library) is an injected parameter for
  user-authored ruleset patterns.  The one pattern hard-coded in the source,
  `_CARD_CANDIDATE_RE`, is embedded concretely below so that its behaviour
  can be evaluated.
* JSON values parsed by Python's `json` module are modelled by the `Json`
  inductive; numbers are modelled as rationals (JSON numerals); Python
  `None` and JSON `null` are identified (as they are in Python).
* File, network and thread effects are made explicit: functions receive the
  file contents / transaction outcome as arguments and return the new state.
* `while` loops are modelled with an explicit fuel argument equal to the
  bound the source guarantees; sufficiency of the fuel is proved where the
  theorems need it.
-/

/-- JSON values as produced by `json.loads`.  Object fields keep their file
order (Python dicts preserve insertion order); numbers are rationals. -/
inductive Json where
  | null : Json
  | bool (b : Bool) : Json
  | num (q : Rat) : Json
  | str (s : String) : Json
  | arr (xs : List Json) : Json
  | obj (kvs : List (String × Json)) : Json

namespace Json

/-- First-match association lookup, mirroring a Python dict access.  (A
parsed Python dict cannot hold duplicate keys, so first = only.) -/
def lookupKey : List (String × Json) → String → Option Json
  | [], _ => none
  | (k, v) :: kvs, key => if k = key then some v else lookupKey kvs key

/-- Model of `d.get(key)`: `None` (= `null`) when the key is absent or the
value is not a dict. -/
def getKey (j : Json) (key : String) : Json :=
  match j with
  | .obj kvs => (lookupKey kvs key).getD .null
  | _ => .null

/-- Python truthiness of a parsed JSON value. -/
def truthy : Json → Bool
  | .null => false
  | .bool b => b
  | .num q => q ≠ 0
  | .str s => s ≠ ""
  | .arr xs => ¬ xs.isEmpty
  | .obj kvs => ¬ kvs.isEmpty

/-- Model of the Python expression `a or b`. -/
def orJ (a b : Json) : Json := if a.truthy then a else b

/-- Model of Python `str()` on a parsed JSON value.  The `repr`-style text
of nested containers is abbreviated; no verified property depends on it
(it can only flow into opaque title/message strings). -/
def pyStr : Json → String
  | .null => "None"
  | .bool true => "True"
  | .bool false => "False"
  | .num q => toString q
  | .str s => s
  | .arr _ => "[...]"
  | .obj _ => "\x7b...\x7d"

/-- Whether the value is a dict (`isinstance(x, dict)`). -/
def isObj : Json → Bool
  | .obj _ => true
  | _ => false

/-- Whether the value is a Python `int`: a JSON numeral with denominator 1.
(Python `bool` is technically an `int` subtype; that corner is not
modelled and is irrelevant to every claim.) -/
def intOf? : Json → Option Int
  | .num q => if q.den = 1 then some q.num else none
  | _ => none

end Json

/-- Whitespace test used by Python's `str.strip()` and `\s`. -/
def pyCharIsSpace (c : Char) : Bool := c.isWhitespace

/-- Python `s.strip()`: drop leading and trailing whitespace. -/
def pyStrip (s : String) : String :=
  String.mk (((s.toList.dropWhile pyCharIsSpace).reverse.dropWhile pyCharIsSpace).reverse)

/-- Python `s.upper()` (the tier strings in the schema are ASCII). -/
def pyUpper (s : String) : String := String.mk (s.toList.map Char.toUpper)

/-- A structured finding, mirroring the `Finding` dataclass of
`directive_validation.py`. -/
structure Finding where
  directive_id : Int
  title : String
  level : String
  message : String
deriving DecidableEq, Repr

/-- `_compile_flags`: fold the flag characters into the `re` module's flag
bits (IGNORECASE = 2, MULTILINE = 8, DOTALL = 16). -/
def _compile_flags (flag_s : String) : Nat :=
  flag_s.toList.foldl
    (fun flags ch =>
      if ch.toLower = Char.ofNat 105 then flags ||| 2
      else if ch.toLower = Char.ofNat 109 then flags ||| 8
      else if ch.toLower = Char.ofNat 115 then flags ||| 16
      else flags)
    0

/-- Counts maximal runs of non-whitespace characters. -/
def wordCountAux : Bool → List Char → Nat
  | _, [] => 0
  | inWord, c :: cs =>
    if pyCharIsSpace c then wordCountAux false cs
    else (if inWord then 0 else 1) + wordCountAux true cs

/-- `_word_count`: `len([w for w in re.split(r"\s+", s.strip()) if w])`,
i.e. the number of maximal non-whitespace runs. -/
def _word_count (s : String) : Nat := wordCountAux false s.toList

/-- `_luhn_ok`: the standard mod-10 Luhn checksum exactly as written in the
source (doubling positions congruent to `len % 2`, i.e. every second digit
from the rightmost). -/
def _luhn_ok (digits : String) : Bool :=
  let l := digits.toList
  let parity := l.length % 2
  let total := (List.range l.length).zip l |>.foldl
    (fun (total : Int) iw =>
      let n : Int := (iw.2.toNat : Int) - 48
      let n := if iw.1 % 2 = parity then (if n * 2 > 9 then n * 2 - 9 else n * 2) else n
      total + n)
    0
  total % 10 = 0

/-!
`_CARD_CANDIDATE_RE = re.compile(r"(?:\\d[ -]?){13,19}")`.

In a Python *raw* string, `\\` denotes two characters: an escaped backslash
for the regex engine.  The compiled pattern therefore repeats the unit
"literal backslash, literal letter d, optional space or hyphen" between 13
and 19 times — it does NOT match digit runs.  The embedding below
reproduces exactly this compiled pattern: the repetition is greedy and the
trailing option can never overlap the start of the next unit (a unit starts
with a backslash), so maximal munch coincides with the backtracking search
done by `re.finditer`.
-/

/-- One unit of the compiled candidate pattern: a literal backslash, a
literal `d`, then optionally one space or hyphen.  Returns the consumed
characters and the rest. -/
def matchUnit : List Char → Option (List Char × List Char)
  | '\\' :: 'd' :: c :: rest =>
      if c = ' ' ∨ c = '-' then some (['\\', 'd', c], rest)
      else some (['\\', 'd'], c :: rest)
  | ['\\', 'd'] => some (['\\', 'd'], [])
  | _ => none

/-- Greedily match up to `n` units, returning how many matched, the
consumed characters, and the remainder. -/
def matchRepeat : Nat → List Char → Nat × List Char × List Char
  | 0, cs => (0, [], cs)
  | n + 1, cs =>
    match matchUnit cs with
    | none => (0, [], cs)
    | some (con, rest) =>
      let r := matchRepeat n rest
      (r.1 + 1, con ++ r.2.1, r.2.2)

/-- `re.finditer` for the candidate pattern: scan left to right; at each
position accept a greedy match of 13–19 units, else advance one character.
`fuel` bounds the scan; `input.length + 1` always suffices because every
step consumes at least one character. -/
def findIter : Nat → List Char → List (List Char)
  | 0, _ => []
  | _, [] => []
  | fuel + 1, c :: cs =>
    let r := matchRepeat 19 (c :: cs)
    if 13 ≤ r.1 then r.2.1 :: findIter fuel r.2.2
    else findIter fuel cs

/-- `_find_luhn_cards`: candidates from the (buggy) candidate regex, then
strip non-digits, re-check the 13–19 length bound, and keep Luhn-valid
runs. -/
def _find_luhn_cards (text : String) : List String :=
  (findIter (text.toList.length + 1) text.toList).filterMap fun cand =>
    let digits := String.mk (cand.filter fun ch => ch.isDigit)
    if 13 ≤ digits.length ∧ digits.length ≤ 19 ∧ _luhn_ok digits then
      some digits
    else none

/-- Model of Python `float()` restricted to the shapes the ruleset schema
uses (a JSON numeral); anything else is a conversion error. -/
def pyFloat : Json → Except String Rat
  | .num q => .ok q
  | _ => .error "float() argument error"

/-- Model of Python `int()` restricted to the shapes the ruleset schema
uses (a JSON numeral, truncated); anything else is a conversion error.
For the only use site (`max_words`, compared with `> 0`) flooring and
truncation agree on every value that can yield a finding. -/
def pyInt : Json → Except String Int
  | .num q => .ok q.floor
  | _ => .error "int() argument error"

/-- A single quote character, for rendering Python `repr` of a string. -/
def pyQuote : String := String.singleton (Char.ofNat 39)

/-- An abstract semantic matcher, `(text, phrases, threshold) ->
(blocked, reason)`; injected exactly as in the source. -/
def SemanticMatcher : Type := String → List String → Rat → Bool × String

/-- An abstract `re.search`: `(pattern, text, flags) -> matched?`.  The
source delegates user-authored patterns to the external `re` library. -/
def ReSearch : Type := String → String → Nat → Bool

/-- The kind tag of a check dict, as computed by the source:
`str(chk.get("kind") or "").strip()`. -/
def checkKind (chk : Json) : String :=
  pyStrip ((chk.getKey "kind").orJ (.str "")).pyStr

/-- The `regex_forbid` branch: each named pattern is matched
independently; every match contributes one finding. -/
def checkRegexForbid (re : ReSearch) (text : String) (did : Int)
    (title level : String) (chk : Json) : List Finding :=
  match chk.getKey "patterns" with
  | .arr pats =>
    pats.flatMap fun p =>
      if ¬ p.isObj then []
      else
        let rx := ((p.getKey "regex").orJ (.str "")).pyStr
        if rx = "" then []
        else
          let flags := _compile_flags ((p.getKey "flags").orJ (.str "")).pyStr
          if re rx text flags then
            let pname := ((p.getKey "name").orJ (.str "pattern")).pyStr
            [⟨did, title, level, "Matched forbidden pattern: " ++ pname ++ "."⟩]
          else []
  | _ => []

/-- The `regex_require` branch: absence of the required pattern yields one
finding. -/
def checkRegexRequire (re : ReSearch) (text : String) (did : Int)
    (title level : String) (chk : Json) : List Finding :=
  let rx := ((chk.getKey "pattern").orJ (.str "")).pyStr
  if rx = "" then []
  else
    let flags := _compile_flags ((chk.getKey "flags").orJ (.str "")).pyStr
    if ¬ re rx text flags then
      [⟨did, title, level, "Missing required pattern."⟩]
    else []

/-- The `luhn_card_forbid` branch: one finding when any Luhn-valid
candidate is present. -/
def checkLuhnForbid (text : String) (did : Int) (title level : String) : List Finding :=
  if _find_luhn_cards text ≠ [] then
    [⟨did, title, level, "Detected a likely payment card number (Luhn-positive)."⟩]
  else []

/-- The `semantic_forbid` branch: skipped unless `include_semantic`;
raises when no matcher was injected; otherwise one finding when the
matcher blocks. -/
def checkSemanticForbid (sm : Option SemanticMatcher) (text : String)
    (include_semantic : Bool) (did : Int) (title level : String)
    (chk : Json) : Except String (List Finding) :=
  if ¬ include_semantic then .ok []
  else
    match sm with
    | none => .error "include_semantic=True requires semantic_matcher"
    | some matcher =>
      match chk.getKey "phrases" with
      | .arr phrases =>
        if phrases.isEmpty then .ok []
        else
          let phrases_s := (phrases.map Json.pyStr).filter fun x => pyStrip x ≠ ""
          match pyFloat ((chk.getKey "threshold").orJ (.num (78 / 100 : Rat))) with
          | .error e => .error e
          | .ok threshold =>
            let br := matcher text phrases_s threshold
            if br.1 then
              let msg := "Semantic similarity matched a prohibited intent." ++
                (if br.2 ≠ "" then " (" ++ br.2 ++ ")" else "")
              .ok [⟨did, title, level, msg⟩]
            else .ok []
      | _ => .ok []

/-- The `max_words` branch: one finding when the word count exceeds a
positive bound. -/
def checkMaxWords (text : String) (did : Int) (title level : String)
    (chk : Json) : Except String (List Finding) :=
  match pyInt ((chk.getKey "n").orJ (.num 0)) with
  | .error e => .error e
  | .ok n =>
    if n > 0 ∧ (_word_count text : Int) > n then
      .ok [⟨did, title, level, "Output exceeds " ++ toString n ++ " words."⟩]
    else .ok []

/-- The finding reported for a check of unrecognized kind: always
advisory, so schema problems stay visible. -/
def unknownKindFinding (did : Int) (title kind : String) : Finding :=
  ⟨did, title, "advisory", "Unknown check kind: " ++ pyQuote ++ kind ++ pyQuote ++ "."⟩

/-- Evaluation of one check of a directive: the body of the
`for chk in checks` loop of `validate_output`.  Returns the findings the
check contributes, or the exception it raises. -/
def processCheck (re : ReSearch) (sm : Option SemanticMatcher) (text : String)
    (include_semantic : Bool) (did : Int) (title : String) (level : String)
    (chk : Json) : Except String (List Finding) :=
  if ¬ chk.isObj then .ok []
  else
    let kind := checkKind chk
    if kind = "regex_forbid" then .ok (checkRegexForbid re text did title level chk)
    else if kind = "regex_require" then .ok (checkRegexRequire re text did title level chk)
    else if kind = "luhn_card_forbid" then .ok (checkLuhnForbid text did title level)
    else if kind = "semantic_forbid" then
      checkSemanticForbid sm text include_semantic did title level chk
    else if kind = "max_words" then checkMaxWords text did title level chk
    else .ok [unknownKindFinding did title kind]

/-- `d.get("id")` filtered by `isinstance(did, int)`. -/
def directiveIntId (d : Json) : Option Int := (d.getKey "id").intOf?

/-- The display title of a directive:
`str(d.get("title") or d.get("text") or "").strip() or f"Directive 0"`. -/
def directiveTitle (d : Json) (did : Int) : String :=
  let t := pyStrip (((d.getKey "title").orJ (d.getKey "text")).orJ (.str "")).pyStr
  if t = "" then "Directive " ++ toString did else t

/-- The normalized enforcement tier:
`str(d.get("validation_tier") or "BLOCK").strip().upper()`. -/
def directiveTier (d : Json) : String :=
  pyUpper (pyStrip ((d.getKey "validation_tier").orJ (.str "BLOCK")).pyStr)

/-- The checks list of a directive, when
`vc = d.get("validation_criteria") or ` an empty dict is a dict and
`vc.get("checks")` is a list. -/
def directiveChecks (d : Json) : Option (List Json) :=
  let vc := (d.getKey "validation_criteria").orJ (.obj [])
  match vc with
  | .obj _ =>
    match vc.getKey "checks" with
    | .arr cs => some cs
    | _ => none
  | _ => none

/-- Sequencing of `Except`-valued evaluation over a list, mirroring a loop
whose body may raise: the first exception aborts the whole call. -/
def mapMExcept (f : α → Except String β) : List α → Except String (List β)
  | [] => .ok []
  | a :: as =>
    match f a with
    | .error e => .error e
    | .ok b =>
      match mapMExcept f as with
      | .error e => .error e
      | .ok bs => .ok (b :: bs)

/-- The body of the `for d in directives` loop of `validate_output`:
directives without an integer `id` are skipped; a directive without a
checks list yields the single advisory finding; otherwise each check is
evaluated with the tier-derived level. -/
def processDirective (re : ReSearch) (sm : Option SemanticMatcher) (text : String)
    (include_semantic : Bool) (d : Json) : Except String (List Finding) :=
  match directiveIntId d with
  | none => .ok []
  | some did =>
    let title := directiveTitle d did
    match directiveChecks d with
    | none => .ok [⟨did, title, "advisory", "Directive has no machine-checkable checks."⟩]
    | some checks =>
      let level := if directiveTier d = "BLOCK" then "violation" else "advisory"
      match mapMExcept (processCheck re sm text include_semantic did title level) checks with
      | .error e => .error e
      | .ok fss => .ok fss.flatten

/-- `get_directives`: `ruleset.get("directives")` must be a list of dicts,
else a `TypeError` is raised. -/
def get_directives (ruleset : Json) : Except String (List Json) :=
  match ruleset.getKey "directives" with
  | .arr ds =>
    if ds.all Json.isObj then .ok ds
    else .error "Directive at index is not an object/dict"
  | _ => .error "ruleset.directives must be a list"

/-- `validate_output(text, ruleset=..., include_semantic=...,
semantic_matcher=...)`: validate text against the schema-driven ruleset.
The ruleset is passed already parsed (file loading is external I/O). -/
def validate_output (re : ReSearch) (sm : Option SemanticMatcher) (text : String)
    (ruleset : Json) (include_semantic : Bool) : Except String (List Finding) :=
  match get_directives ruleset with
  | .error e => .error e
  | .ok ds =>
    match mapMExcept (processDirective re sm text include_semantic) ds with
    | .error e => .error e
    | .ok fss => .ok fss.flatten

/-!
Merkle subsystem.  Bytes are `List Nat`; the external SHA-256 compression
is the injected parameter `H`.  `hashlib.sha256(x).digest()` is modelled as
`H x` and `x + y` (bytes concatenation) as `x ++ y`.
-/

/-- Standard UTF-8 encoding of one code point. -/
def utf8EncodeCharNat (c : Char) : List Nat :=
  let n := c.toNat
  if n < 0x80 then [n]
  else if n < 0x800 then
    [0xC0 ||| (n >>> 6), 0x80 ||| (n &&& 0x3F)]
  else if n < 0x10000 then
    [0xE0 ||| (n >>> 12), 0x80 ||| ((n >>> 6) &&& 0x3F), 0x80 ||| (n &&& 0x3F)]
  else
    [0xF0 ||| (n >>> 18), 0x80 ||| ((n >>> 12) &&& 0x3F),
     0x80 ||| ((n >>> 6) &&& 0x3F), 0x80 ||| (n &&& 0x3F)]

/-- UTF-8 encoding of a string (`line.encode("utf-8")`). -/
def utf8Bytes (s : String) : List Nat := s.toList.flatMap utf8EncodeCharNat

/-- `anchor_outputs._leaf_hash`: SHA-256 of the raw line bytes. -/
def _leaf_hash (H : List Nat → List Nat) (line : String) : List Nat :=
  H (utf8Bytes line)

/-- `verify_output.leaf_hash`: SHA-256 of the raw line bytes. -/
def leaf_hash (H : List Nat → List Nat) (line : String) : List Nat :=
  H (utf8Bytes line)

/-- One level of the anchoring-side Merkle loop: the iterator in
`_merkle_root` consumes hashes two at a time, duplicating the last one when
the level has odd cardinality (`b = next(it, a)`). -/
def _nextLevel (H : List Nat → List Nat) : List (List Nat) → List (List Nat)
  | [] => []
  | [a] => [H (a ++ a)]
  | a :: b :: rest => H (a ++ b) :: _nextLevel H rest

/-- The `while len(level) > 1` loop of `_merkle_root`, with explicit fuel.
`fuel = initial length` always suffices (each pass at least halves the
level); sufficiency is proved below where needed. -/
def _merkle_loop (H : List Nat → List Nat) : Nat → List (List Nat) → List Nat
  | 0, level => level.headD []
  | fuel + 1, level =>
    if 1 < level.length then _merkle_loop H fuel (_nextLevel H level)
    else level.headD []

/-- `anchor_outputs._merkle_root`: empty input returns the empty byte
string `b""`; otherwise pairwise hashing bottom-up until one root
remains. -/
def _merkle_root (H : List Nat → List Nat) (hashes : List (List Nat)) : List Nat :=
  if hashes.isEmpty then [] else _merkle_loop H hashes.length hashes

/-- One level of the verification-side loop in `merkle_root_and_proof`:
`for i in range(0, len(level), 2)` with `b = level[i+1] if i+1 < len(level)
else a`. -/
def nextLevelV (H : List Nat → List Nat) (level : List (List Nat)) : List (List Nat) :=
  (List.range ((level.length + 1) / 2)).map fun j =>
    let a := level.getD (2 * j) []
    let b := if 2 * j + 1 < level.length then level.getD (2 * j + 1) [] else a
    H (a ++ b)

/-- The `while len(level) > 1` loop of `merkle_root_and_proof`: record the
sibling of the tracked index at each level, then build the next level and
halve the index.  Fuel as in `_merkle_loop`.  (For an out-of-range index
Python would raise `IndexError`; the claims only concern valid indices.) -/
def merkleProofLoop (H : List Nat → List Nat) :
    Nat → List (List Nat) → Nat → List Nat × List (List Nat)
  | 0, level, _ => (level.headD [], [])
  | fuel + 1, level, idx =>
    if 1 < level.length then
      let sibling :=
        if idx % 2 = 0 then
          if idx + 1 < level.length then level.getD (idx + 1) [] else level.getD idx []
        else level.getD (idx - 1) []
      let r := merkleProofLoop H fuel (nextLevelV H level) (idx / 2)
      (r.1, sibling :: r.2)
    else (level.headD [], [])

/-- `verify_output.merkle_root_and_proof`: raises `ValueError("No leaves")`
on an empty leaf list, else returns the root and the bottom-up sibling
list. -/
def merkle_root_and_proof (H : List Nat → List Nat) (leaves : List (List Nat))
    (index : Nat) : Except String (List Nat × List (List Nat)) :=
  if leaves.isEmpty then .error "No leaves"
  else .ok (merkleProofLoop H leaves.length leaves index)

/-- `tests/test_merkle_proof._verify_proof`: replay the proof from the
leaf, hashing `current ++ sibling` at even indices and `sibling ++
current` at odd ones, halving the index each level. -/
def _verify_proof (H : List Nat → List Nat) (leaf : List Nat)
    (proof : List (List Nat)) (index : Nat) : List Nat :=
  match proof with
  | [] => leaf
  | sib :: rest =>
    _verify_proof H (if index % 2 = 0 then H (leaf ++ sib) else H (sib ++ leaf)) rest (index / 2)

/-!
Execution runtime: the verdict-building logic of `guardian_chat`
(`guardian_runtime.py`, lines 106–151).  The cache, logging and timing are
I/O; the measured fast-path latency, the configured mode / semantic
switch / budget, and the two rule-engine finding lists are passed in
explicitly.  The modelled value is the Verdict dict returned to the caller
on a cache miss; the `sync_light` background recheck runs after return and
only ever overwrites the cache and appends a new log entry.
-/

/-- The Verdict dict built by `guardian_chat`. -/
structure Verdict where
  passed : Bool
  violations : List String
  notes : List String
  score : Int
deriving DecidableEq, Repr

/-- The initial verdict `{"passed": True, "violations": [], "notes": [],
"score": 100}`. -/
def initVerdict : Verdict := ⟨true, [], [], 100⟩

/-- Folding one finding into the verdict (`for f in findings` in
`guardian_chat`).  Note `res.setdefault("score", 0)` is a no-op because
`score` is always present, so the score stays 100. -/
def applyFinding (res : Verdict) (f : Finding) : Verdict :=
  if f.level = "violation" then
    { res with
      passed := false
      violations := res.violations ++ ["directive_" ++ toString f.directive_id]
      notes := res.notes ++ [f.title ++ ": " ++ f.message] }
  else
    { res with notes := res.notes ++ [f.title ++ ": " ++ f.message] }

/-- The note appended when the fast path exceeds the latency budget in
`sync_light` mode: `f"background_pending:
{int(dt_fast)}ms"` with the braces inline. -/
def backgroundNote (dtFastMs : Int) : String :=
  "background_pending:" ++ toString dtFastMs ++ "ms"

/-- The Verdict returned by `guardian_chat` on a cache miss, as a function
of the configuration, the fast-path findings, the semantic-pass findings
(evaluated only on the strict path) and the measured fast-path latency. -/
def guardian_chat_result (mode : String) (semEnabled : Bool) (budgetMs : Int)
    (fastFindings semFindings : List Finding) (dtFastMs : Int) : Verdict :=
  let res := fastFindings.foldl applyFinding initVerdict
  if mode = "strict" ∧ semEnabled ∧ res.passed then
    semFindings.foldl applyFinding res
  else if mode = "sync_light" ∧ semEnabled ∧ res.passed then
    if dtFastMs > budgetMs then
      { res with notes := res.notes ++ [backgroundNote dtFastMs] }
    else res
  else res

/-- The findings the invocation produces synchronously: the fast-path
findings, plus the semantic findings exactly when the strict-mode semantic
pass runs.  (The `sync_light` background recheck is fire-and-forget; its
findings never reach the returned Verdict.) -/
def producedFindings (mode : String) (semEnabled : Bool)
    (fastFindings semFindings : List Finding) : List Finding :=
  fastFindings ++
    (if mode = "strict" ∧ semEnabled ∧ (fastFindings.foldl applyFinding initVerdict).passed
     then semFindings else [])

/-!
Anchoring pass (`anchor_outputs.py`).  The ledger file content is a
string; substring membership, first-occurrence split and `lstrip("\n")`
are embedded on character lists.
-/

/-- Whether `needle` is a leading prefix of `hay`. -/
def isLeading : List Char → List Char → Bool
  | [], _ => true
  | _ :: _, [] => false
  | a :: as, b :: bs => a = b && isLeading as bs

/-- Python's `needle in hay` substring test. -/
def occursIn (needle : List Char) : List Char → Bool
  | [] => isLeading needle []
  | c :: t => isLeading needle (c :: t) || occursIn needle t

/-- Python's `hay.split(marker, 1)`: split at the first occurrence of the
marker, returning the text before and after it. -/
def splitFirst (marker : List Char) : List Char → Option (List Char × List Char)
  | [] => if isLeading marker [] then some ([], []) else none
  | c :: t =>
    if isLeading marker (c :: t) then some ([], (c :: t).drop marker.length)
    else
      match splitFirst marker t with
      | some p => some (c :: p.1, p.2)
      | none => none

/-- The section marker `_append_anchor_entry` looks for in `ANCHORS.md`. -/
def anchorsMarker : String := "## Output batch anchors"

/-- `_append_anchor_entry`: no-op when the entry is already present;
otherwise insert it right below the marker (normalizing the following
blank lines), or append it at the end when the marker is absent.  The
`existing` argument is the ledger file's content (empty for a fresh
file). -/
def _append_anchor_entry (existing entry : String) : String :=
  let e := existing.toList
  let ent := entry.toList
  if occursIn ent e then existing
  else
    match splitFirst anchorsMarker.toList e with
    | some p =>
      String.mk (p.1 ++ anchorsMarker.toList ++ ('\n' :: '\n' :: ent) ++
        p.2.dropWhile (fun ch => ch = '\n'))
    | none => existing ++ entry

/-- Lower-case hex digit of a value below 16. -/
def hexDigit (n : Nat) : Char :=
  if n < 10 then Char.ofNat (48 + n) else Char.ofNat (87 + n)

/-- `bytes.hex()`: two lower-case hex digits per byte. -/
def bytesToHex (bs : List Nat) : String :=
  String.mk (bs.flatMap fun b => [hexDigit (b % 256 / 16), hexDigit (b % 16)])

/-- The ledger record written for a successfully anchored batch (the
`entry` f-string in `anchor_outputs.main`). -/
def anchorEntry (start count : Nat) (rootHex txHex : String) : String :=
  "- OUTPUT_BATCH lines " ++ toString (start + 1) ++ "-" ++ toString (start + count) ++
    " → `" ++ rootHex ++ "` → [" ++ txHex ++ "](https://sepolia.etherscan.io/tx/" ++
    txHex ++ ")\n"

/-- The state tracked in `logs/output_anchor_state.json`. -/
structure AnchorState where
  anchored_lines : Nat
deriving DecidableEq, Repr

/-- The anchoring pass `anchor_outputs.main`, from the point where the log
lines and state are in hand (environment/file plumbing is I/O, and the
missing-credential / missing-log early exits with code 2 touch no state).
`txOutcome` is the injected anchor sink: the transaction hash on confirmed
success, or the raised exception's text.  Returns (exit code, new state,
new ledger content). -/
def anchor_main (H : List Nat → List Nat) (logLines : List String)
    (st : AnchorState) (ledger : String) (dryRun : Bool)
    (txOutcome : Except String String) : Nat × AnchorState × String :=
  let start := st.anchored_lines
  let newLines := logLines.drop start
  if newLines.isEmpty then (0, st, ledger)
  else
    let leaves := newLines.map (_leaf_hash H)
    let root := _merkle_root H leaves
    let rootHex := bytesToHex root
    if dryRun then (0, st, ledger)
    else
      match txOutcome with
      | .error _ => (3, st, ledger)
      | .ok txHex =>
        let entry := anchorEntry start newLines.length rootHex txHex
        (0, ⟨start + newLines.length⟩, _append_anchor_entry ledger entry)

/-!
Canonicalizer: `canonical_ruleset_sha256` hashes
`json.dumps(obj, sort_keys=True, ensure_ascii=False).encode("utf-8")`.
The serializer below reproduces `json.dumps` with its default separators
(", " between items, ": " after keys) and recursive key sorting; object
values are serialized first (structurally), then the (key, serialized
value) pairs are sorted by key, which is exactly the output order of
`sort_keys=True`.
-/

/-- JSON string escaping as done by `json.dumps(..., ensure_ascii=False)`:
quote and backslash are escaped, control characters use the short escapes
or a `\\u00XX` form, everything else passes through. -/
def escapeChar (c : Char) : List Char :=
  if c = Char.ofNat 34 then ['\\', Char.ofNat 34]
  else if c = '\\' then ['\\', '\\']
  else if c = '\n' then ['\\', 'n']
  else if c = '\t' then ['\\', 't']
  else if c = '\r' then ['\\', 'r']
  else if c = Char.ofNat 8 then ['\\', 'b']
  else if c = Char.ofNat 12 then ['\\', 'f']
  else if c.toNat < 32 then
    '\\' :: 'u' :: '0' :: '0' :: [hexDigit (c.toNat / 16), hexDigit (c.toNat % 16)]
  else [c]

/-- Serialization of a JSON string literal. -/
def dumpString (s : String) : String :=
  String.singleton (Char.ofNat 34) ++ String.mk (s.toList.flatMap escapeChar) ++
    String.singleton (Char.ofNat 34)

/-- Key order used by `sort_keys=True` on the (key, serialized value)
pairs. -/
def kvLe (p q : String × String) : Prop := p.1 ≤ q.1

instance : DecidableRel kvLe := fun p q => inferInstanceAs (Decidable (p.1 ≤ q.1))

instance : IsTotal (String × String) kvLe := ⟨fun a b => le_total a.1 b.1⟩

instance : IsTrans (String × String) kvLe := ⟨fun _ _ _ h1 h2 => le_trans h1 h2⟩

/-- Strict key order, used to show sorted pair lists with distinct keys
are unique. -/
def kvLt (p q : String × String) : Prop := p.1 < q.1

instance : IsAntisymm (String × String) kvLt := ⟨fun _ _ h1 h2 => (lt_asymm h1 h2).elim⟩

/-- Sort (key, serialized value) pairs by key. -/
def sortKV (l : List (String × String)) : List (String × String) :=
  List.insertionSort kvLe l

/-- Render one serialized object member with the default `": "` key
separator. -/
def renderPair (p : String × String) : String := dumpString p.1 ++ ": " ++ p.2

mutual

/-- `json.dumps(obj, sort_keys=True, ensure_ascii=False)`. -/
def dumps : Json → String
  | .null => "null"
  | .bool true => "true"
  | .bool false => "false"
  | .num q => toString q
  | .str s => dumpString s
  | .arr xs => "[" ++ String.intercalate ", " (dumpsList xs) ++ "]"
  | .obj kvs =>
    "\x7b" ++ String.intercalate ", " ((sortKV (dumpsKV kvs)).map renderPair) ++ "\x7d"

/-- Serialize the elements of an array. -/
def dumpsList : List Json → List String
  | [] => []
  | x :: xs => dumps x :: dumpsList xs

/-- Serialize the values of an object, keeping keys. -/
def dumpsKV : List (String × Json) → List (String × String)
  | [] => []
  | (k, v) :: kvs => (k, dumps v) :: dumpsKV kvs

end

/-- `canonical_ruleset_sha256` /  the canonical digest in `anchor_hash.py`:
SHA-256 over the UTF-8 bytes of the key-sorted serialization of the parsed
ruleset, as a hex string.  (File reading and JSON parsing are external.) -/
def canonical_ruleset_sha256 (H : List Nat → List Nat) (rulesetObj : Json) : String :=
  bytesToHex (H (utf8Bytes (dumps rulesetObj)))

/-- Two parsed JSON values that differ only in the order of object keys:
the spec's "same semantic content".  Arrays must agree pointwise; an
object's members may be permuted, with the members themselves related
recursively; object keys are distinct (a parsed Python dict cannot repeat
keys). -/
inductive JsonKeyPerm : Json → Json → Prop where
  | null : JsonKeyPerm .null .null
  | bool (b : Bool) : JsonKeyPerm (.bool b) (.bool b)
  | num (q : Rat) : JsonKeyPerm (.num q) (.num q)
  | str (s : String) : JsonKeyPerm (.str s) (.str s)
  | arr {xs ys : List Json} (hlen : xs.length = ys.length)
      (h : ∀ (i : Nat) (hi : i < xs.length) (hj : i < ys.length),
        JsonKeyPerm (xs.get ⟨i, hi⟩) (ys.get ⟨i, hj⟩)) :
      JsonKeyPerm (.arr xs) (.arr ys)
  | obj {kvs kvs₀ kvs' : List (String × Json)}
      (hnd : (kvs.map Prod.fst).Nodup)
      (hlen : kvs.length = kvs₀.length)
      (hkeys : ∀ (i : Nat) (hi : i < kvs.length) (hj : i < kvs₀.length),
        (kvs.get ⟨i, hi⟩).1 = (kvs₀.get ⟨i, hj⟩).1)
      (hvals : ∀ (i : Nat) (hi : i < kvs.length) (hj : i < kvs₀.length),
        JsonKeyPerm (kvs.get ⟨i, hi⟩).2 (kvs₀.get ⟨i, hj⟩).2)
      (hperm : kvs₀.Perm kvs') :
      JsonKeyPerm (.obj kvs) (.obj kvs')

/-!
Concrete instances used by the claim theorems and witnesses.
-/

/-- A regex oracle that matches nothing; the rulesets below contain no
regex checks, so it is never consulted on the evaluated paths. -/
def reNone : ReSearch := fun _ _ _ => false

/-- A concrete ruleset whose single BLOCK-tier directive carries one
`luhn_card_forbid` check. -/
def rsLuhn : Json :=
  Json.obj [("directives", Json.arr [Json.obj
    [("id", Json.num 12),
     ("title", Json.str "No payment card numbers"),
     ("validation_criteria", Json.obj [("checks", Json.arr [Json.obj
       [("kind", Json.str "luhn_card_forbid")]])])]])]

/-- A concrete ruleset whose single directive is explicitly BLOCK-tier and
carries one check of an unrecognized kind. -/
def rsUnknownKind : Json :=
  Json.obj [("directives", Json.arr [Json.obj
    [("id", Json.num 9),
     ("validation_tier", Json.str "BLOCK"),
     ("validation_criteria", Json.obj [("checks", Json.arr [Json.obj
       [("kind", Json.str "mystery_check")]])])]])]

/-- A concrete ruleset with no `semantic_forbid` check anywhere: one
directive with a single `max_words` check. -/
def rsNoSemantic : Json :=
  Json.obj [("directives", Json.arr [Json.obj
    [("id", Json.num 3),
     ("validation_criteria", Json.obj [("checks", Json.arr [Json.obj
       [("kind", Json.str "max_words"), ("n", Json.num 5)]])])]])]

/-- Claim C1: the spec's Luhn test vectors.  The code CANNOT produce a card
finding: `_CARD_CANDIDATE_RE` is compiled from the raw string
`r"(?:\\d[ -]?){13,19}"`, whose `\\` is a literal backslash, so candidates
are runs of the two characters backslash-`d`, never digit runs.  The Luhn
checksum itself accepts all three spec vectors (showing the intent), yet
`validate_output` returns no finding on any of them; the two negative
vectors trivially also produce no finding. -/
theorem luhn_card_check_never_fires :
    validate_output reNone none "4111 1111 1111 1111" rsLuhn false = .ok [] ∧
    validate_output reNone none "5500 0000 0000 0004" rsLuhn false = .ok [] ∧
    validate_output reNone none "3782 822463 10005" rsLuhn false = .ok [] ∧
    _luhn_ok "4111111111111111" = true ∧
    _luhn_ok "5500000000000004" = true ∧
    _luhn_ok "378282246310005" = true ∧
    _find_luhn_cards "4111 1111 1111 1111" = [] ∧
    _find_luhn_cards "5500 0000 0000 0004" = [] ∧
    _find_luhn_cards "3782 822463 10005" = [] ∧
    validate_output reNone none "4111 1111 1111 1121" rsLuhn false = .ok [] ∧
    validate_output reNone none "123456789" rsLuhn false = .ok [] := by
  exact ⟨rfl, rfl, rfl, by decide, by decide, by decide, by decide, by decide, by decide,
    rfl, rfl⟩

/-- Claim C9: Merkle base cases on both sides.  Zero leaves: the anchoring
side returns the empty byte string `b""` (an explicit empty marker, not a
32-byte zero hash) and the verification side raises `ValueError("No
leaves")`.  One leaf: both sides return exactly that line's leaf hash, and
the proof is empty. -/
theorem merkle_base_cases : ∀ (H : List Nat → List Nat) (line : String) (i : Nat),
    _merkle_root H [] = [] ∧
    merkle_root_and_proof H [] i = .error "No leaves" ∧
    _merkle_root H [_leaf_hash H line] = _leaf_hash H line ∧
    merkle_root_and_proof H [leaf_hash H line] 0 = .ok (leaf_hash H line, []) := by
  intro H line i
  exact ⟨rfl, rfl, rfl, rfl⟩

/-- Claim C3, counterexample: a BLOCK-tier directive whose check has an
unrecognized kind produces a Finding with level `advisory`, so "level =
violation exactly when the owning directive's tier is BLOCK" fails as
stated for check Findings of unknown kind. -/
theorem block_tier_advisory_counterexample :
    validate_output reNone none "hello" rsUnknownKind false =
      .ok [⟨9, "Directive 9", "advisory",
        "Unknown check kind: " ++ pyQuote ++ "mystery_check" ++ pyQuote ++ "."⟩] ∧
    directiveTier (Json.obj
      [("id", Json.num 9),
       ("validation_tier", Json.str "BLOCK"),
       ("validation_criteria", Json.obj [("checks", Json.arr [Json.obj
         [("kind", Json.str "mystery_check")]])])]) = "BLOCK" ∧
    "advisory" ≠ "violation" := by
  exact ⟨rfl, rfl, by decide⟩

/-- Claim C7, counterexample: with `include_semantic = True` and no
matcher, `validate_output` on a ruleset containing no `semantic_forbid`
check returns findings normally — it does not raise. -/
theorem no_matcher_no_raise_counterexample :
    validate_output reNone none "hello" rsNoSemantic true = .ok [] := by rfl

/-- Claim C6, counterexample: in `strict` mode with a fast-path latency of
500 ms against a budget of 120 ms, the returned Verdict carries no note at
all — the over-budget note is not attached outside `sync_light`. -/
theorem budget_note_strict_counterexample :
    (guardian_chat_result "strict" true 120 [] [] 500).notes = [] ∧ (500 : Int) > 120 := by
  exact ⟨rfl, by decide⟩

/-- A small concrete stand-in for the injected hash, used by witnesses. -/
def demoHash : List Nat → List Nat := fun l => [l.foldl (fun a b => a + b) 0 % 256]

theorem toList_mk (l : List Char) : (String.mk l).toList = l := rfl

theorem toList_append (s t : String) : (s ++ t).toList = s.toList ++ t.toList := rfl

theorem isLeading_append_self (n t : List Char) : isLeading n (n ++ t) = true := by
  induction n with
  | nil => rfl
  | cons a as ih => simp [isLeading, ih]

theorem occursIn_of_isLeading (n l : List Char) (h : isLeading n l = true) :
    occursIn n l = true := by
  cases l with
  | nil => simpa [occursIn] using h
  | cons c t => simp [occursIn, h]

theorem occursIn_middle (n p t : List Char) : occursIn n (p ++ n ++ t) = true := by
  induction p with
  | nil =>
    exact occursIn_of_isLeading n (n ++ t) (isLeading_append_self n t)
  | cons a as ih =>
    simp only [List.cons_append, occursIn, List.append_eq]
    rw [ih]
    simp

theorem isLeading_decomp (m l : List Char) (h : isLeading m l = true) :
    l = m ++ l.drop m.length := by
  induction m generalizing l with
  | nil => simp
  | cons a as ih =>
    cases l with
    | nil => simp [isLeading] at h
    | cons b bs =>
      simp only [isLeading, Bool.and_eq_true, decide_eq_true_eq] at h
      obtain ⟨rfl, h2⟩ := h
      simpa using ih bs h2

theorem splitFirst_decomp (m l : List Char) (p : List Char × List Char)
    (h : splitFirst m l = some p) : l = p.1 ++ m ++ p.2 := by
  induction l generalizing p with
  | nil =>
    simp only [splitFirst] at h
    by_cases hm : isLeading m [] = true
    · rw [if_pos hm] at h
      cases m with
      | nil =>
        simp only [Option.some.injEq] at h
        subst h
        rfl
      | cons a as => simp [isLeading] at hm
    · rw [if_neg hm] at h
      exact absurd h (by simp)
  | cons c t ih =>
    simp only [splitFirst] at h
    by_cases hm : isLeading m (c :: t) = true
    · rw [if_pos hm] at h
      simp only [Option.some.injEq] at h
      subst h
      simpa using isLeading_decomp m (c :: t) hm
    · rw [if_neg hm] at h
      cases hsp : splitFirst m t with
      | none => rw [hsp] at h; exact absurd h (by simp)
      | some q =>
        rw [hsp] at h
        simp only [Option.some.injEq] at h
        subst h
        simpa using ih q hsp

/-- What `_append_anchor_entry` does when the entry is not yet present:
the entry ends up in the ledger, inserted either right below the marker
(normalizing the blank lines that followed it) or at the very end — in
both cases exactly one copy is added at exactly one place. -/
theorem append_anchor_entry_spec (existing entry : String)
    (h : occursIn entry.toList existing.toList = false) :
    occursIn entry.toList (_append_anchor_entry existing entry).toList = true ∧
    ((∃ pre suf, existing.toList = pre ++ anchorsMarker.toList ++ suf ∧
        (_append_anchor_entry existing entry).toList =
          pre ++ anchorsMarker.toList ++ ('\n' :: '\n' :: entry.toList) ++
            suf.dropWhile (fun ch => ch = '\n')) ∨
      _append_anchor_entry existing entry = existing ++ entry) := by
  have hres : _append_anchor_entry existing entry =
      (match splitFirst anchorsMarker.toList existing.toList with
       | some p =>
         String.mk (p.1 ++ anchorsMarker.toList ++ ('\n' :: '\n' :: entry.toList) ++
           p.2.dropWhile (fun ch => ch = '\n'))
       | none => existing ++ entry) := by
    unfold _append_anchor_entry
    simp only [h, Bool.false_eq_true, if_false]
  cases hsp : splitFirst anchorsMarker.toList existing.toList with
  | none =>
    rw [hsp] at hres
    rw [hres]
    constructor
    · rw [toList_append]
      have := occursIn_middle entry.toList existing.toList []
      simpa using this
    · exact Or.inr rfl
  | some p =>
    rw [hsp] at hres
    rw [hres]
    constructor
    · rw [toList_mk]
      have := occursIn_middle entry.toList
        (p.1 ++ anchorsMarker.toList ++ ['\n', '\n'])
        (p.2.dropWhile (fun ch => ch = '\n'))
      simpa [List.append_assoc] using this
    · exact Or.inl ⟨p.1, p.2, splitFirst_decomp _ _ p hsp, rfl⟩

/-- Claim C2: an anchoring pass with unanchored lines in hand.  If the
anchor sink fails, the pass exits with code 3 and both the anchor state
and the ledger are returned untouched.  On confirmed success,
`anchored_lines` advances by exactly the number of previously-unanchored
lines and the ledger receives the batch record via
`_append_anchor_entry`; when that record was not already present it is
inserted exactly once (below the marker, or appended at the end). -/
theorem anchor_pass_atomic :
    ∀ (H : List Nat → List Nat) (lines : List String) (st : AnchorState)
      (ledger : String) (txOutcome : Except String String),
    lines.drop st.anchored_lines ≠ [] →
    (∀ e, txOutcome = .error e →
      anchor_main H lines st ledger false txOutcome = (3, st, ledger)) ∧
    (∀ txHex, txOutcome = .ok txHex →
      anchor_main H lines st ledger false txOutcome =
        (0, ⟨st.anchored_lines + (lines.drop st.anchored_lines).length⟩,
          _append_anchor_entry ledger
            (anchorEntry st.anchored_lines (lines.drop st.anchored_lines).length
              (bytesToHex (_merkle_root H
                ((lines.drop st.anchored_lines).map (_leaf_hash H)))) txHex)) ∧
      (∀ entry, entry = anchorEntry st.anchored_lines (lines.drop st.anchored_lines).length
          (bytesToHex (_merkle_root H
            ((lines.drop st.anchored_lines).map (_leaf_hash H)))) txHex →
        occursIn entry.toList ledger.toList = false →
        occursIn entry.toList (_append_anchor_entry ledger entry).toList = true ∧
        ((∃ pre suf, ledger.toList = pre ++ anchorsMarker.toList ++ suf ∧
            (_append_anchor_entry ledger entry).toList =
              pre ++ anchorsMarker.toList ++ ('\n' :: '\n' :: entry.toList) ++
                suf.dropWhile (fun ch => ch = '\n')) ∨
          _append_anchor_entry ledger entry = ledger ++ entry))) := by
  intro H lines st ledger txOutcome hne
  have hnotEmpty : (lines.drop st.anchored_lines).isEmpty = false := by
    cases h : lines.drop st.anchored_lines with
    | nil => exact absurd h hne
    | cons a as => rfl
  refine ⟨?_, ?_⟩
  · intro e he
    subst he
    simp [anchor_main, hnotEmpty]
  · intro txHex htx
    subst htx
    refine ⟨by simp [anchor_main, hnotEmpty], ?_⟩
    intro entry hentry hnotIn
    exact append_anchor_entry_spec ledger entry hnotIn

/-- Witness for `anchor_pass_atomic` at a concrete two-line log with one
line already anchored, for both a failing and a succeeding sink. -/
theorem anchor_pass_atomic_witness :
    anchor_main demoHash ["l1", "l2"] ⟨1⟩ "" false (Except.error "boom") = (3, ⟨1⟩, "") ∧
    anchor_main demoHash ["l1", "l2"] ⟨1⟩ "" false (Except.ok "ab12") =
      (0, ⟨1 + ((["l1", "l2"] : List String).drop 1).length⟩,
        _append_anchor_entry ""
          (anchorEntry 1 ((["l1", "l2"] : List String).drop 1).length
            (bytesToHex (_merkle_root demoHash
              (((["l1", "l2"] : List String).drop 1).map (_leaf_hash demoHash)))) "ab12")) ∧
    occursIn (anchorEntry 1 ((["l1", "l2"] : List String).drop 1).length
        (bytesToHex (_merkle_root demoHash
          (((["l1", "l2"] : List String).drop 1).map (_leaf_hash demoHash)))) "ab12").toList
      (_append_anchor_entry ""
        (anchorEntry 1 ((["l1", "l2"] : List String).drop 1).length
          (bytesToHex (_merkle_root demoHash
            (((["l1", "l2"] : List String).drop 1).map (_leaf_hash demoHash)))) "ab12")).toList =
      true := by
  refine ⟨(anchor_pass_atomic demoHash ["l1", "l2"] ⟨1⟩ "" (Except.error "boom")
      (by decide)).1 "boom" rfl,
    ((anchor_pass_atomic demoHash ["l1", "l2"] ⟨1⟩ "" (Except.ok "ab12")
      (by decide)).2 "ab12" rfl).1, ?_⟩
  exact (((anchor_pass_atomic demoHash ["l1", "l2"] ⟨1⟩ "" (Except.ok "ab12")
      (by decide)).2 "ab12" rfl).2 _ rfl (by decide)).1

theorem mapMExcept_append (f : α → Except String β) (l₁ l₂ : List α) :
    mapMExcept f (l₁ ++ l₂) =
      match mapMExcept f l₁ with
      | .error e => .error e
      | .ok bs₁ =>
        match mapMExcept f l₂ with
        | .error e => .error e
        | .ok bs₂ => .ok (bs₁ ++ bs₂) := by
  induction l₁ with
  | nil => simp [mapMExcept]; cases mapMExcept f l₂ <;> rfl
  | cons a as ih =>
    simp only [List.cons_append, mapMExcept]
    cases f a with
    | error e => rfl
    | ok b =>
      rw [List.append_eq, ih]
      cases mapMExcept f as with
      | error e => rfl
      | ok bs =>
        cases mapMExcept f l₂ with
        | error e => rfl
        | ok bs₂ => rfl

/-- A directive carrying an integer id whose checks value is missing or
not a list contributes exactly one advisory Finding ("Directive has no
machine-checkable checks.") to the output of `validate_output`, in its
position among the other directives' findings. -/
theorem no_checks_directive_one_advisory :
    ∀ (re : ReSearch) (sm : Option SemanticMatcher) (text : String) (incl : Bool)
      (rs : Json) (pre post : List Json) (d : Json) (did : Int),
    get_directives rs = .ok (pre ++ d :: post) →
    directiveIntId d = some did →
    directiveChecks d = none →
    validate_output re sm text rs incl =
      (match mapMExcept (processDirective re sm text incl) pre,
             mapMExcept (processDirective re sm text incl) post with
       | .ok fpre, .ok fpost =>
         .ok (fpre.flatten ++
           (⟨did, directiveTitle d did, "advisory",
             "Directive has no machine-checkable checks."⟩ :: fpost.flatten))
       | .error e, _ => .error e
       | .ok _, .error e => .error e) := by
  intro re sm text incl rs pre post d did hds hid hchecks
  have hd : processDirective re sm text incl d =
      .ok [⟨did, directiveTitle d did, "advisory",
        "Directive has no machine-checkable checks."⟩] := by
    unfold processDirective
    rw [hid, hchecks]
  unfold validate_output
  rw [hds]
  dsimp only
  rw [mapMExcept_append]
  cases hpre : mapMExcept (processDirective re sm text incl) pre with
  | error e => rfl
  | ok fpre =>
    simp only [mapMExcept, hd]
    cases hpost : mapMExcept (processDirective re sm text incl) post with
    | error e => rfl
    | ok fpost => simp [List.flatten_append]

/-- Concrete instance of `no_checks_directive_one_advisory`: a
one-directive ruleset with an id and no checks value yields exactly the
single advisory. -/
theorem no_checks_directive_one_advisory_witness :
    validate_output reNone none "x"
      (Json.obj [("directives", Json.arr [Json.obj [("id", Json.num 4)]])]) false =
      .ok [⟨4, "Directive 4", "advisory", "Directive has no machine-checkable checks."⟩] := by
  have h := no_checks_directive_one_advisory reNone none "x" false
    (Json.obj [("directives", Json.arr [Json.obj [("id", Json.num 4)]])])
    [] [] (Json.obj [("id", Json.num 4)]) 4 rfl rfl rfl
  simpa [mapMExcept] using h

/-- Claim C7 (amended): with `include_semantic = True` and
`semantic_matcher = None`, as soon as evaluation reaches a
`semantic_forbid` check — any directive with an integer id whose checks
list contains a dict check of that kind, all earlier directives and checks
evaluating without error — `validate_output` raises
`ValueError("include_semantic=True requires semantic_matcher")` instead of
silently skipping the semantic check. -/
theorem semantic_check_without_matcher_raises :
    ∀ (re : ReSearch) (text : String) (rs : Json) (pre post : List Json) (d : Json)
      (did : Int) (cpre cpost : List Json) (chk : Json)
      (fpre cfs : List (List Finding)),
    get_directives rs = .ok (pre ++ d :: post) →
    mapMExcept (processDirective re none text true) pre = .ok fpre →
    directiveIntId d = some did →
    directiveChecks d = some (cpre ++ chk :: cpost) →
    mapMExcept (processCheck re none text true did (directiveTitle d did)
      (if directiveTier d = "BLOCK" then "violation" else "advisory")) cpre = .ok cfs →
    chk.isObj = true →
    checkKind chk = "semantic_forbid" →
    validate_output re none text rs true =
      .error "include_semantic=True requires semantic_matcher" := by
  intro re text rs pre post d did cpre cpost chk fpre cfs hds hpre hid hdc hcpre hobj hk
  have hchk : processCheck re none text true did (directiveTitle d did)
      (if directiveTier d = "BLOCK" then "violation" else "advisory") chk =
      .error "include_semantic=True requires semantic_matcher" := by
    simp [processCheck, checkSemanticForbid, hk, hobj]
  have hd : processDirective re none text true d =
      .error "include_semantic=True requires semantic_matcher" := by
    unfold processDirective
    rw [hid, hdc]
    dsimp only
    rw [mapMExcept_append, hcpre]
    dsimp only
    simp only [mapMExcept, hchk]
  unfold validate_output
  rw [hds]
  dsimp only
  rw [mapMExcept_append, hpre]
  dsimp only
  simp only [mapMExcept, hd]

/-- Witness for `semantic_check_without_matcher_raises`: a one-directive
ruleset whose single check is `semantic_forbid`. -/
theorem semantic_check_without_matcher_raises_witness :
    validate_output reNone none "t"
      (Json.obj [("directives", Json.arr [Json.obj
        [("id", Json.num 2),
         ("validation_criteria", Json.obj [("checks", Json.arr [Json.obj
           [("kind", Json.str "semantic_forbid"),
            ("phrases", Json.arr [Json.str "x"])]])])]])]) true =
      .error "include_semantic=True requires semantic_matcher" := by
  exact semantic_check_without_matcher_raises reNone "t"
    (Json.obj [("directives", Json.arr [Json.obj
      [("id", Json.num 2),
       ("validation_criteria", Json.obj [("checks", Json.arr [Json.obj
         [("kind", Json.str "semantic_forbid"),
          ("phrases", Json.arr [Json.str "x"])]])])]])])
    [] [] (Json.obj
      [("id", Json.num 2),
       ("validation_criteria", Json.obj [("checks", Json.arr [Json.obj
         [("kind", Json.str "semantic_forbid"),
          ("phrases", Json.arr [Json.str "x"])]])])])
    2 [] [] (Json.obj
      [("kind", Json.str "semantic_forbid"),
       ("phrases", Json.arr [Json.str "x"])])
    [] [] rfl rfl rfl rfl rfl rfl rfl

/-- The five check kinds `validate_output` recognizes. -/
def recognizedKind (chk : Json) : Prop :=
  checkKind chk = "regex_forbid" ∨ checkKind chk = "regex_require" ∨
  checkKind chk = "luhn_card_forbid" ∨ checkKind chk = "semantic_forbid" ∨
  checkKind chk = "max_words"

instance (chk : Json) : Decidable (recognizedKind chk) := by
  unfold recognizedKind
  infer_instance

theorem checkRegexForbid_levels (re : ReSearch) (text : String) (did : Int)
    (title level : String) (chk : Json) :
    ∀ f ∈ checkRegexForbid re text did title level chk, f.level = level := by
  intro f hf
  unfold checkRegexForbid at hf
  split at hf
  · simp only [List.mem_flatMap] at hf
    obtain ⟨p, hp, hfp⟩ := hf
    split_ifs at hfp <;> simp at hfp
    rw [hfp]
  · simp at hf

theorem checkRegexRequire_levels (re : ReSearch) (text : String) (did : Int)
    (title level : String) (chk : Json) :
    ∀ f ∈ checkRegexRequire re text did title level chk, f.level = level := by
  intro f hf
  unfold checkRegexRequire at hf
  dsimp only at hf
  split at hf
  · simp at hf
  · split at hf
    · simp at hf
      rw [hf]
    · simp at hf

theorem checkLuhnForbid_levels (text : String) (did : Int) (title level : String) :
    ∀ f ∈ checkLuhnForbid text did title level, f.level = level := by
  intro f hf
  unfold checkLuhnForbid at hf
  split at hf
  · simp at hf
    rw [hf]
  · simp at hf

theorem checkSemanticForbid_levels (sm : Option SemanticMatcher) (text : String)
    (incl : Bool) (did : Int) (title level : String) (chk : Json) (fs : List Finding)
    (h : checkSemanticForbid sm text incl did title level chk = .ok fs) :
    ∀ f ∈ fs, f.level = level := by
  intro f hf
  unfold checkSemanticForbid at h
  split at h
  · simp only [Except.ok.injEq] at h; subst h; simp at hf
  · split at h
    · simp at h
    · split at h
      · split at h
        · simp only [Except.ok.injEq] at h; subst h; simp at hf
        · split at h
          · simp at h
          · dsimp only at h
            split at h
            · simp only [Except.ok.injEq] at h; subst h
              simp at hf
              rw [hf]
            · simp only [Except.ok.injEq] at h; subst h; simp at hf
      · simp only [Except.ok.injEq] at h; subst h; simp at hf

theorem checkMaxWords_levels (text : String) (did : Int) (title level : String)
    (chk : Json) (fs : List Finding)
    (h : checkMaxWords text did title level chk = .ok fs) :
    ∀ f ∈ fs, f.level = level := by
  intro f hf
  unfold checkMaxWords at h
  split at h
  · simp at h
  · split at h
    · simp only [Except.ok.injEq] at h; subst h
      simp at hf
      rw [hf]
    · simp only [Except.ok.injEq] at h; subst h; simp at hf

theorem processCheck_levels_recognized (re : ReSearch) (sm : Option SemanticMatcher)
    (text : String) (incl : Bool) (did : Int) (title level : String) (chk : Json)
    (fs : List Finding) (hrec : recognizedKind chk)
    (h : processCheck re sm text incl did title level chk = .ok fs) :
    ∀ f ∈ fs, f.level = level := by
  unfold processCheck at h
  split at h
  · simp only [Except.ok.injEq] at h; subst h; simp
  · dsimp only at h
    split at h
    · simp only [Except.ok.injEq] at h; subst h
      exact checkRegexForbid_levels re text did title level chk
    · split at h
      · simp only [Except.ok.injEq] at h; subst h
        exact checkRegexRequire_levels re text did title level chk
      · split at h
        · simp only [Except.ok.injEq] at h; subst h
          exact checkLuhnForbid_levels text did title level
        · split at h
          · exact checkSemanticForbid_levels sm text incl did title level chk fs h
          · split at h
            · exact checkMaxWords_levels text did title level chk fs h
            · rename_i h2 h3 h4 h5 h6
              exact absurd hrec (by simp [recognizedKind, h2, h3, h4, h5, h6])

theorem processCheck_levels_unrecognized (re : ReSearch) (sm : Option SemanticMatcher)
    (text : String) (incl : Bool) (did : Int) (title level : String) (chk : Json)
    (fs : List Finding) (hrec : ¬ recognizedKind chk)
    (h : processCheck re sm text incl did title level chk = .ok fs) :
    ∀ f ∈ fs, f.level = "advisory" := by
  unfold processCheck at h
  split at h
  · simp only [Except.ok.injEq] at h; subst h; simp
  · dsimp only at h
    split at h
    · rename_i h2
      exact absurd (Or.inl h2) hrec
    · split at h
      · rename_i h3
        exact absurd (Or.inr (Or.inl h3)) hrec
      · split at h
        · rename_i h4
          exact absurd (Or.inr (Or.inr (Or.inl h4))) hrec
        · split at h
          · rename_i h5
            exact absurd (Or.inr (Or.inr (Or.inr (Or.inl h5)))) hrec
          · split at h
            · rename_i h6
              exact absurd (Or.inr (Or.inr (Or.inr (Or.inr h6)))) hrec
            · simp only [Except.ok.injEq] at h; subst h
              intro f hf
              simp at hf
              rw [hf]
              rfl

theorem processCheck_levels_or (re : ReSearch) (sm : Option SemanticMatcher)
    (text : String) (incl : Bool) (did : Int) (title level : String) (chk : Json)
    (fs : List Finding)
    (h : processCheck re sm text incl did title level chk = .ok fs) :
    ∀ f ∈ fs, f.level = level ∨ f.level = "advisory" := by
  by_cases hrec : recognizedKind chk
  · intro f hf
    exact Or.inl (processCheck_levels_recognized re sm text incl did title level
      chk fs hrec h f hf)
  · intro f hf
    exact Or.inr (processCheck_levels_unrecognized re sm text incl did title level
      chk fs hrec h f hf)

theorem foldl_applyFinding_notes (l : List Finding) (v : Verdict) :
    (l.foldl applyFinding v).notes =
      v.notes ++ l.map (fun f => f.title ++ ": " ++ f.message) := by
  induction l generalizing v with
  | nil => simp
  | cons f fs ih =>
    simp only [List.foldl_cons, ih, applyFinding]
    split_ifs <;> simp

theorem foldl_applyFinding_passed (l : List Finding) (v : Verdict) :
    (l.foldl applyFinding v).passed =
      (v.passed && l.all fun f => !(f.level == "violation")) := by
  induction l generalizing v with
  | nil => simp
  | cons f fs ih =>
    simp only [List.foldl_cons, ih, applyFinding]
    split_ifs with h
    · simp [h]
    · have hb : (f.level == "violation") = false := by simp [h]
      simp [hb]

theorem mapMExcept_mem (f : α → Except String β) (l : List α) (bs : List β)
    (h : mapMExcept f l = .ok bs) : ∀ b ∈ bs, ∃ a ∈ l, f a = .ok b := by
  induction l generalizing bs with
  | nil =>
    simp only [mapMExcept, Except.ok.injEq] at h
    subst h
    simp
  | cons a as ih =>
    simp only [mapMExcept] at h
    cases hfa : f a with
    | error e => rw [hfa] at h; simp at h
    | ok b0 =>
      rw [hfa] at h
      cases hrest : mapMExcept f as with
      | error e => rw [hrest] at h; simp at h
      | ok bs0 =>
        rw [hrest] at h
        simp only [Except.ok.injEq] at h
        subst h
        intro b hb
        rcases List.mem_cons.mp hb with rfl | hb2
        · exact ⟨a, List.mem_cons_self a as, hfa⟩
        · obtain ⟨a2, ha2, he⟩ := ih bs0 hrest b hb2
          exact ⟨a2, List.mem_cons_of_mem a ha2, he⟩

theorem processDirective_eq (re : ReSearch) (sm : Option SemanticMatcher)
    (text : String) (incl : Bool) (d : Json) (did : Int) (cs : List Json)
    (hid : directiveIntId d = some did) (hdc : directiveChecks d = some cs) :
    processDirective re sm text incl d =
      match mapMExcept (processCheck re sm text incl did (directiveTitle d did)
        (if directiveTier d = "BLOCK" then "violation" else "advisory")) cs with
      | .error e => .error e
      | .ok fss => .ok fss.flatten := by
  unfold processDirective
  rw [hid]
  dsimp only
  rw [hdc]

theorem processDirective_warn_advisory (re : ReSearch) (sm : Option SemanticMatcher)
    (text : String) (incl : Bool) (d : Json) (fs : List Finding)
    (h : processDirective re sm text incl d = .ok fs)
    (htier : directiveTier d ≠ "BLOCK") :
    ∀ f ∈ fs, f.level = "advisory" := by
  intro f hf
  unfold processDirective at h
  cases hid : directiveIntId d with
  | none =>
    rw [hid] at h
    simp only [Except.ok.injEq] at h
    subst h
    simp at hf
  | some did =>
    rw [hid] at h
    dsimp only at h
    cases hdc : directiveChecks d with
    | none =>
      rw [hdc] at h
      simp only [Except.ok.injEq] at h
      subst h
      simp at hf
      rw [hf]
    | some cs =>
      rw [hdc] at h
      dsimp only at h
      rw [if_neg htier] at h
      cases hm : mapMExcept (processCheck re sm text incl did (directiveTitle d did)
          "advisory") cs with
      | error e => rw [hm] at h; simp at h
      | ok fss =>
        rw [hm] at h
        simp only [Except.ok.injEq] at h
        subst h
        rw [List.mem_flatten] at hf
        obtain ⟨fl, hfl, hffl⟩ := hf
        obtain ⟨c, hc, hcok⟩ := mapMExcept_mem _ cs fss hm fl hfl
        rcases processCheck_levels_or re sm text incl did (directiveTitle d did)
          "advisory" c fl hcok f hffl with h1 | h1 <;> exact h1

theorem guardian_passed_iff (mode : String) (semEnabled : Bool) (budgetMs : Int)
    (ff sf : List Finding) (dt : Int) :
    ((guardian_chat_result mode semEnabled budgetMs ff sf dt).passed = true ↔
      ∀ f ∈ producedFindings mode semEnabled ff sf, f.level ≠ "violation") := by
  have hbase : (ff.foldl applyFinding initVerdict).passed =
      ff.all (fun f => !(f.level == "violation")) := by
    rw [foldl_applyFinding_passed]
    rfl
  have htail : ((ff.foldl applyFinding initVerdict).passed = true ↔
      ∀ f ∈ ff, f.level ≠ "violation") := by
    rw [hbase]
    simp [List.all_eq_true]
  unfold guardian_chat_result producedFindings
  dsimp only
  by_cases h1 : mode = "strict" ∧ semEnabled = true ∧
      (ff.foldl applyFinding initVerdict).passed = true
  · rw [if_pos h1, if_pos h1]
    rw [foldl_applyFinding_passed, h1.2.2]
    have hff : ∀ f ∈ ff, ¬ f.level = "violation" := htail.mp h1.2.2
    simp only [Bool.true_and, List.all_eq_true, List.mem_append]
    constructor
    · intro hall f hf
      rcases hf with hf | hf
      · exact hff f hf
      · simpa using hall f hf
    · intro hall f hf
      simpa using hall f (Or.inr hf)
  · rw [if_neg h1, if_neg h1]
    by_cases h2 : mode = "sync_light" ∧ semEnabled = true ∧
        (ff.foldl applyFinding initVerdict).passed = true
    · rw [if_pos h2]
      by_cases h3 : dt > budgetMs
      · rw [if_pos h3]
        simpa using htail
      · rw [if_neg h3]
        simpa using htail
    · rw [if_neg h2]
      simpa using htail

/-- Claim C3 (amended): (1) the Verdict returned by `guardian_chat` passes
exactly when no synchronously produced finding has level `violation`; (2)
check findings of the five recognized kinds carry exactly the
tier-derived level, while findings for unrecognized kinds are always
advisory; (3) the tier-derived level is `violation` exactly when the
normalized tier is BLOCK; (4) hence a non-BLOCK (e.g. WARN) directive only
ever produces advisory findings. -/
theorem verdict_passed_and_level_discipline :
    (∀ (mode : String) (semEnabled : Bool) (budgetMs : Int)
        (ff sf : List Finding) (dt : Int),
      ((guardian_chat_result mode semEnabled budgetMs ff sf dt).passed = true ↔
        ∀ f ∈ producedFindings mode semEnabled ff sf, f.level ≠ "violation")) ∧
    (∀ (re : ReSearch) (sm : Option SemanticMatcher) (text : String) (incl : Bool)
        (did : Int) (title level : String) (chk : Json) (fs : List Finding),
      processCheck re sm text incl did title level chk = .ok fs →
      (recognizedKind chk → ∀ f ∈ fs, f.level = level) ∧
      (¬ recognizedKind chk → ∀ f ∈ fs, f.level = "advisory")) ∧
    (∀ (re : ReSearch) (sm : Option SemanticMatcher) (text : String) (incl : Bool)
        (d : Json) (did : Int) (cs : List Json),
      directiveIntId d = some did → directiveChecks d = some cs →
      processDirective re sm text incl d =
        match mapMExcept (processCheck re sm text incl did (directiveTitle d did)
          (if directiveTier d = "BLOCK" then "violation" else "advisory")) cs with
        | .error e => .error e
        | .ok fss => .ok fss.flatten) ∧
    (∀ (re : ReSearch) (sm : Option SemanticMatcher) (text : String) (incl : Bool)
        (d : Json) (fs : List Finding),
      processDirective re sm text incl d = .ok fs →
      directiveTier d ≠ "BLOCK" →
      ∀ f ∈ fs, f.level = "advisory") := by
  refine ⟨guardian_passed_iff, ?_, processDirective_eq, processDirective_warn_advisory⟩
  intro re sm text incl did title level chk fs h
  exact ⟨fun hrec => processCheck_levels_recognized re sm text incl did title level
      chk fs hrec h,
    fun hrec => processCheck_levels_unrecognized re sm text incl did title level
      chk fs hrec h⟩

/-- Witness for `verdict_passed_and_level_discipline` at concrete inputs:
a recognized `max_words` check under level `violation`, the same check
inside a WARN-tier directive, and the passed-iff equivalence at a concrete
verdict. -/
theorem verdict_passed_and_level_discipline_witness :
    ((guardian_chat_result "strict" true 120 [] [] 5).passed = true ↔
      ∀ f ∈ producedFindings "strict" true ([] : List Finding) [], f.level ≠ "violation") ∧
    (∀ f ∈ [(⟨7, "T", "violation", "Output exceeds 1 words."⟩ : Finding)],
      f.level = "violation") ∧
    (∀ f ∈ [(⟨5, "Directive 5", "advisory", "Output exceeds 1 words."⟩ : Finding)],
      f.level = "advisory") := by
  refine ⟨verdict_passed_and_level_discipline.1 "strict" true 120 [] [] 5, ?_, ?_⟩
  · exact (verdict_passed_and_level_discipline.2.1 reNone none "a b c" false 7 "T"
      "violation" (Json.obj [("kind", Json.str "max_words"), ("n", Json.num 1)])
      [⟨7, "T", "violation", "Output exceeds 1 words."⟩] rfl).1 (by decide)
  · exact verdict_passed_and_level_discipline.2.2.2 reNone none "a b c" false
      (Json.obj [("id", Json.num 5), ("validation_tier", Json.str "WARN"),
        ("validation_criteria", Json.obj [("checks", Json.arr [Json.obj
          [("kind", Json.str "max_words"), ("n", Json.num 1)]])])])
      [⟨5, "Directive 5", "advisory", "Output exceeds 1 words."⟩] rfl (by decide)

/-- Claim C6 (amended): the over-budget note is attached exactly when the
mode is `sync_light`, the semantic detector is enabled, the fast path
passed, and the measured fast-path latency exceeds the budget; in every
other situation (in particular in `strict` and `regex_only` modes, and
when the fast path failed) the Verdict's notes are exactly the findings'
notes.  When attached, the note is the final one and reads
`background_pending:<dt>ms`. -/
theorem latency_note_sync_light_only :
    ∀ (mode : String) (semEnabled : Bool) (budgetMs : Int)
      (ff sf : List Finding) (dt : Int),
    (guardian_chat_result mode semEnabled budgetMs ff sf dt).notes.length =
      (producedFindings mode semEnabled ff sf).length +
        (if mode = "sync_light" ∧ semEnabled = true ∧
            (ff.foldl applyFinding initVerdict).passed = true ∧ dt > budgetMs
         then 1 else 0) ∧
    ((mode = "sync_light" ∧ semEnabled = true ∧
        (ff.foldl applyFinding initVerdict).passed = true ∧ dt > budgetMs) →
      (guardian_chat_result mode semEnabled budgetMs ff sf dt).notes.getLast? =
        some (backgroundNote dt)) := by
  intro mode semEnabled budgetMs ff sf dt
  have hbn : (ff.foldl applyFinding initVerdict).notes =
      ff.map (fun f => f.title ++ ": " ++ f.message) := by
    rw [foldl_applyFinding_notes]
    rfl
  unfold guardian_chat_result producedFindings
  dsimp only
  by_cases h1 : mode = "strict" ∧ semEnabled = true ∧
      (ff.foldl applyFinding initVerdict).passed = true
  · rw [if_pos h1, if_pos h1]
    have hC : ¬ (mode = "sync_light" ∧ semEnabled = true ∧
        (ff.foldl applyFinding initVerdict).passed = true ∧ dt > budgetMs) := by
      rintro ⟨hm, -, -, -⟩
      rw [hm] at h1
      exact absurd h1.1 (by decide)
    rw [if_neg hC]
    refine ⟨?_, fun hc => absurd hc hC⟩
    rw [foldl_applyFinding_notes, hbn]
    simp
  · rw [if_neg h1, if_neg h1]
    by_cases h2 : mode = "sync_light" ∧ semEnabled = true ∧
        (ff.foldl applyFinding initVerdict).passed = true
    · rw [if_pos h2]
      by_cases h3 : dt > budgetMs
      · rw [if_pos h3]
        have hC : (mode = "sync_light" ∧ semEnabled = true ∧
            (ff.foldl applyFinding initVerdict).passed = true ∧ dt > budgetMs) :=
          ⟨h2.1, h2.2.1, h2.2.2, h3⟩
        rw [if_pos hC]
        constructor
        · rw [hbn]
          simp
        · intro _
          simp
      · rw [if_neg h3]
        have hC : ¬ (mode = "sync_light" ∧ semEnabled = true ∧
            (ff.foldl applyFinding initVerdict).passed = true ∧ dt > budgetMs) := by
          rintro ⟨-, -, -, hgt⟩
          exact h3 hgt
        rw [if_neg hC]
        refine ⟨?_, fun hc => absurd hc hC⟩
        rw [hbn]
        simp
    · rw [if_neg h2]
      have hC : ¬ (mode = "sync_light" ∧ semEnabled = true ∧
          (ff.foldl applyFinding initVerdict).passed = true ∧ dt > budgetMs) := by
        rintro ⟨hm, hs, hp, -⟩
        exact h2 ⟨hm, hs, hp⟩
      rw [if_neg hC]
      refine ⟨?_, fun hc => absurd hc hC⟩
      rw [hbn]
      simp

/-- Witness for `latency_note_sync_light_only`: a `sync_light` invocation
with an empty fast path over budget gets exactly the one background
note. -/
theorem latency_note_sync_light_only_witness :
    (guardian_chat_result "sync_light" true 120 [] [] 500).notes.length =
      (producedFindings "sync_light" true ([] : List Finding) []).length +
        (if ("sync_light" : String) = "sync_light" ∧ (true : Bool) = true ∧
            (([] : List Finding).foldl applyFinding initVerdict).passed = true ∧
            (500 : Int) > 120
         then 1 else 0) ∧
    (guardian_chat_result "sync_light" true 120 [] [] 500).notes.getLast? =
      some (backgroundNote 500) := by
  refine ⟨(latency_note_sync_light_only "sync_light" true 120 [] [] 500).1, ?_⟩
  exact (latency_note_sync_light_only "sync_light" true 120 [] [] 500).2
    ⟨rfl, rfl, by decide, by decide⟩

/-- Two-at-a-time induction on lists, matching the pairing loops. -/
def listPairInd {α : Type _} {P : List α → Prop} (h0 : P []) (h1 : ∀ a, P [a])
    (h2 : ∀ a b l, P l → P (a :: b :: l)) : ∀ l, P l
  | [] => h0
  | [a] => h1 a
  | a :: b :: l => h2 a b l (listPairInd h0 h1 h2 l)

theorem _nextLevel_length (H : List Nat → List Nat) (l : List (List Nat)) :
    (_nextLevel H l).length = (l.length + 1) / 2 := by
  induction l using listPairInd with
  | h0 => simp [_nextLevel]
  | h1 a => simp [_nextLevel]
  | h2 a b rest ih =>
    simp only [_nextLevel, List.length_cons, ih]
    omega

theorem nextLevelV_length (H : List Nat → List Nat) (l : List (List Nat)) :
    (nextLevelV H l).length = (l.length + 1) / 2 := by
  simp [nextLevelV]

theorem nextLevelV_getD (H : List Nat → List Nat) (l : List (List Nat)) (j : Nat)
    (hj : j < (l.length + 1) / 2) :
    (nextLevelV H l).getD j [] =
      H (l.getD (2 * j) [] ++
        (if 2 * j + 1 < l.length then l.getD (2 * j + 1) [] else l.getD (2 * j) [])) := by
  unfold nextLevelV
  rw [List.getD_eq_getElem?_getD, List.getElem?_map, List.getElem?_range hj]
  rfl

/-- The two implementations of "next Merkle level" — the iterator-based
one in `anchor_outputs._merkle_root` and the index-based one in
`verify_output.merkle_root_and_proof` — agree on every level. -/
theorem nextLevelV_eq_nextLevel (H : List Nat → List Nat) (l : List (List Nat)) :
    nextLevelV H l = _nextLevel H l := by
  induction l using listPairInd with
  | h0 => simp [nextLevelV, _nextLevel]
  | h1 a => simp [nextLevelV, _nextLevel, List.range_succ]
  | h2 a b rest ih =>
    have hL : ((a :: b :: rest).length + 1) / 2 = (rest.length + 1) / 2 + 1 := by
      simp only [List.length_cons]
      omega
    show nextLevelV H (a :: b :: rest) = H (a ++ b) :: _nextLevel H rest
    unfold nextLevelV
    rw [hL, List.range_succ_eq_map, List.map_cons, List.map_map]
    congr 1
    · have hc : 2 * 0 + 1 < (a :: b :: rest).length := by
        simp only [List.length_cons]
        omega
      dsimp only
      rw [if_pos hc]
      norm_num [List.getD]
    · rw [← ih]
      unfold nextLevelV
      apply List.map_congr_left
      intro j hj
      have hjk : j < (rest.length + 1) / 2 := List.mem_range.mp hj
      simp only [Function.comp_apply]
      have e2 : (a :: b :: rest).getD (2 * (j + 1)) [] = rest.getD (2 * j) [] := by
        rw [show 2 * (j + 1) = 2 * j + 1 + 1 from by omega]
        rfl
      have e3 : (a :: b :: rest).getD (2 * (j + 1) + 1) [] = rest.getD (2 * j + 1) [] := by
        rw [show 2 * (j + 1) + 1 = 2 * j + 1 + 1 + 1 from by omega]
        rfl
      have e4 : (2 * (j + 1) + 1 < (a :: b :: rest).length) ↔
          (2 * j + 1 < rest.length) := by
        simp only [List.length_cons]
        omega
      rw [e2, e3]
      exact congrArg H (congrArg _ (if_congr e4 rfl rfl))

/-- Replaying the recorded siblings from the tracked leaf recomputes the
root returned by the proof loop, for any fuel that covers the level
size. -/
theorem merkleProofLoop_roundtrip (H : List Nat → List Nat) :
    ∀ (n : Nat) (level : List (List Nat)) (idx : Nat),
    level.length ≤ n + 1 → idx < level.length →
    _verify_proof H (level.getD idx []) (merkleProofLoop H n level idx).2 idx =
      (merkleProofLoop H n level idx).1 := by
  intro n
  induction n with
  | zero =>
    intro level idx hlen hidx
    have h1 : level.length = 1 := by omega
    obtain ⟨a, ha⟩ := List.length_eq_one.mp h1
    subst ha
    have : idx = 0 := by omega
    subst this
    simp [merkleProofLoop, _verify_proof, List.getD]
  | succ n ih =>
    intro level idx hlen hidx
    by_cases hgt : 1 < level.length
    · have hstep : merkleProofLoop H (n + 1) level idx =
          ((merkleProofLoop H n (nextLevelV H level) (idx / 2)).1,
            (if idx % 2 = 0 then
              if idx + 1 < level.length then level.getD (idx + 1) [] else level.getD idx []
            else level.getD (idx - 1) []) ::
              (merkleProofLoop H n (nextLevelV H level) (idx / 2)).2) := by
        simp only [merkleProofLoop]
        rw [if_pos hgt]
      rw [hstep]
      simp only [_verify_proof]
      have hnl : (nextLevelV H level).length = (level.length + 1) / 2 :=
        nextLevelV_length H level
      have hlen2 : (nextLevelV H level).length ≤ n + 1 := by omega
      have hidx2 : idx / 2 < (nextLevelV H level).length := by omega
      have hstep2 : (if idx % 2 = 0 then
            H (level.getD idx [] ++
              (if idx % 2 = 0 then
                if idx + 1 < level.length then level.getD (idx + 1) [] else level.getD idx []
              else level.getD (idx - 1) []))
          else
            H ((if idx % 2 = 0 then
                if idx + 1 < level.length then level.getD (idx + 1) [] else level.getD idx []
              else level.getD (idx - 1) []) ++ level.getD idx [])) =
          (nextLevelV H level).getD (idx / 2) [] := by
        rw [nextLevelV_getD H level (idx / 2) (by omega)]
        by_cases hpar : idx % 2 = 0
        · rw [if_pos hpar, if_pos hpar]
          have h2j : 2 * (idx / 2) = idx := by omega
          rw [h2j]
        · rw [if_neg hpar, if_neg hpar]
          have h2j1 : 2 * (idx / 2) + 1 = idx := by omega
          rw [h2j1]
          have h2j : 2 * (idx / 2) = idx - 1 := by omega
          rw [h2j, if_pos hidx]
      rw [hstep2]
      exact ih (nextLevelV H level) (idx / 2) hlen2 hidx2
    · have hone : level.length = 1 := by omega
      have hstep : merkleProofLoop H (n + 1) level idx = (level.headD [], []) := by
        simp only [merkleProofLoop]
        rw [if_neg hgt]
      rw [hstep]
      obtain ⟨a, ha⟩ := List.length_eq_one.mp hone
      subst ha
      have : idx = 0 := by omega
      subst this
      simp [_verify_proof, List.getD]

/-- The anchoring-side loop and the root component of the proof loop
compute the same value for any fuel and tracked index. -/
theorem merkle_loops_agree (H : List Nat → List Nat) :
    ∀ (n : Nat) (level : List (List Nat)) (idx : Nat),
    _merkle_loop H n level = (merkleProofLoop H n level idx).1 := by
  intro n
  induction n with
  | zero => intro level idx; rfl
  | succ n ih =>
    intro level idx
    by_cases hgt : 1 < level.length
    · have h1 : _merkle_loop H (n + 1) level = _merkle_loop H n (_nextLevel H level) := by
        simp only [_merkle_loop]
        rw [if_pos hgt]
      have h2 : (merkleProofLoop H (n + 1) level idx).1 =
          (merkleProofLoop H n (nextLevelV H level) (idx / 2)).1 := by
        simp only [merkleProofLoop]
        rw [if_pos hgt]
      rw [h1, h2, nextLevelV_eq_nextLevel]
      exact ih (_nextLevel H level) (idx / 2)
    · have h1 : _merkle_loop H (n + 1) level = level.headD [] := by
        simp only [_merkle_loop]
        rw [if_neg hgt]
      have h2 : (merkleProofLoop H (n + 1) level idx).1 = level.headD [] := by
        simp only [merkleProofLoop]
        rw [if_neg hgt]
      rw [h1, h2]

/-- Claim C4: Merkle proof round trip.  For every non-empty leaf list and
valid index, replaying the proof returned by `merkle_root_and_proof` from
the indexed leaf — hashing `current ++ sibling` at even running indices
and `sibling ++ current` at odd ones, halving the index each level —
recomputes exactly the returned root. -/
theorem merkle_proof_round_trip :
    ∀ (H : List Nat → List Nat) (leaves : List (List Nat)) (i : Nat)
      (root : List Nat) (proof : List (List Nat)),
    leaves ≠ [] → i < leaves.length →
    merkle_root_and_proof H leaves i = .ok (root, proof) →
    _verify_proof H (leaves.getD i []) proof i = root := by
  intro H leaves i root proof hne hi h
  have hnotEmpty : leaves.isEmpty = false := by
    cases leaves with
    | nil => exact absurd rfl hne
    | cons a as => rfl
  unfold merkle_root_and_proof at h
  rw [hnotEmpty] at h
  simp only [Bool.false_eq_true, if_false, Except.ok.injEq] at h
  have hr := merkleProofLoop_roundtrip H leaves.length leaves i (by omega) hi
  rw [h] at hr
  exact hr

/-- Witness for `merkle_proof_round_trip` on a three-leaf tree at the
duplicated last position. -/
theorem merkle_proof_round_trip_witness :
    _verify_proof demoHash [3] [[3], [3]] 2 = [9] := by
  have h := merkle_proof_round_trip demoHash [[1], [2], [3]] 2 [9] [[3], [3]]
    (by decide) (by decide) rfl
  simpa using h

/-- Claim C10: the anchoring path and the proof/verification path
implement the same Merkle construction: both hash the raw line bytes the
same way for leaves, and for every non-empty line list and valid index the
root returned by `merkle_root_and_proof` equals `_merkle_root` of the same
leaves. -/
theorem anchor_and_verify_same_root :
    ∀ (H : List Nat → List Nat) (lines : List String) (i : Nat),
    lines ≠ [] → i < lines.length →
    (∀ line, _leaf_hash H line = leaf_hash H line) ∧
    Except.map Prod.fst (merkle_root_and_proof H (lines.map (leaf_hash H)) i) =
      .ok (_merkle_root H (lines.map (_leaf_hash H))) := by
  intro H lines i hne hi
  refine ⟨fun line => rfl, ?_⟩
  have hnotEmpty : (lines.map (leaf_hash H)).isEmpty = false := by
    cases lines with
    | nil => exact absurd rfl hne
    | cons a as => rfl
  unfold merkle_root_and_proof _merkle_root
  rw [hnotEmpty]
  have heq : (lines.map (_leaf_hash H)) = (lines.map (leaf_hash H)) := rfl
  rw [heq, hnotEmpty]
  simp only [Bool.false_eq_true, if_false, Except.map]
  rw [merkle_loops_agree H (lines.map (leaf_hash H)).length (lines.map (leaf_hash H)) i]

/-- Witness for `anchor_and_verify_same_root` on a concrete three-line
log. -/
theorem anchor_and_verify_same_root_witness :
    (∀ line, _leaf_hash demoHash line = leaf_hash demoHash line) ∧
    Except.map Prod.fst
        (merkle_root_and_proof demoHash (["a", "b", "c"].map (leaf_hash demoHash)) 1) =
      .ok (_merkle_root demoHash (["a", "b", "c"].map (_leaf_hash demoHash))) := by
  exact anchor_and_verify_same_root demoHash ["a", "b", "c"] 1 (by decide) (by decide)

theorem dumpsList_eq_map (xs : List Json) : dumpsList xs = xs.map dumps := by
  induction xs with
  | nil => rfl
  | cons x xs ih => simp [dumpsList, ih]

theorem dumpsKV_eq_map (kvs : List (String × Json)) :
    dumpsKV kvs = kvs.map (fun p => (p.1, dumps p.2)) := by
  induction kvs with
  | nil => rfl
  | cons p kvs ih =>
    cases p
    simp [dumpsKV, ih]

/-- Sorting serialized members by key is invariant under permutation when
the keys are distinct: both sorts produce the identical strictly
key-increasing enumeration. -/
theorem sortKV_eq_of_perm (l₁ l₂ : List (String × String))
    (hperm : l₁.Perm l₂) (hnd : (l₁.map Prod.fst).Nodup) :
    sortKV l₁ = sortKV l₂ := by
  have hs₁ : List.Sorted kvLe (sortKV l₁) := List.sorted_insertionSort kvLe l₁
  have hs₂ : List.Sorted kvLe (sortKV l₂) := List.sorted_insertionSort kvLe l₂
  have hp₁ : (sortKV l₁).Perm l₁ := List.perm_insertionSort kvLe l₁
  have hp₂ : (sortKV l₂).Perm l₂ := List.perm_insertionSort kvLe l₂
  have hp : (sortKV l₁).Perm (sortKV l₂) :=
    (hp₁.trans hperm).trans hp₂.symm
  have hnd₁ : ((sortKV l₁).map Prod.fst).Nodup :=
    ((hp₁.map Prod.fst).nodup_iff).mpr hnd
  have hnd₂ : ((sortKV l₂).map Prod.fst).Nodup :=
    ((hp.map Prod.fst).nodup_iff).mp hnd₁
  have hlt₁ : List.Sorted kvLt (sortKV l₁) := by
    have hpw := List.pairwise_map.mp hnd₁
    exact (hs₁.and hpw).imp fun hb => lt_of_le_of_ne hb.1 hb.2
  have hlt₂ : List.Sorted kvLt (sortKV l₂) := by
    have hpw := List.pairwise_map.mp hnd₂
    exact (hs₂.and hpw).imp fun hb => lt_of_le_of_ne hb.1 hb.2
  exact List.eq_of_perm_of_sorted hp hlt₁ hlt₂

/-- The key-sorted serialization is invariant under reordering object
keys at any depth. -/
theorem dumps_eq_of_keyPerm (a b : Json) (h : JsonKeyPerm a b) : dumps a = dumps b := by
  induction h with
  | null => rfl
  | bool b => rfl
  | num q => rfl
  | str s => rfl
  | arr hlen h ih =>
    rename_i xs ys
    show dumps (.arr xs) = dumps (.arr ys)
    unfold dumps
    rw [dumpsList_eq_map, dumpsList_eq_map]
    have : xs.map dumps = ys.map dumps := by
      apply List.ext_getElem
      · simp [hlen]
      · intro i h1 h2
        simp only [List.getElem_map]
        have hi : i < xs.length := by simpa using h1
        have hj : i < ys.length := by simpa using h2
        exact ih i hi hj
    rw [this]
  | obj hnd hlen hkeys hvals hperm ih =>
    rename_i kvs kvs₀ kvs'
    show dumps (.obj kvs) = dumps (.obj kvs')
    unfold dumps
    rw [dumpsKV_eq_map, dumpsKV_eq_map]
    have hmaps : kvs.map (fun p => (p.1, dumps p.2)) =
        kvs₀.map (fun p => (p.1, dumps p.2)) := by
      apply List.ext_getElem
      · simp [hlen]
      · intro i h1 h2
        simp only [List.getElem_map]
        have hi : i < kvs.length := by simpa using h1
        have hj : i < kvs₀.length := by simpa using h2
        have hk := hkeys i hi hj
        have hv := ih i hi hj
        exact Prod.ext hk hv
    have hpm : (kvs.map (fun p => (p.1, dumps p.2))).Perm
        (kvs'.map (fun p => (p.1, dumps p.2))) := by
      rw [hmaps]
      exact hperm.map _
    have hndm : ((kvs.map (fun p => (p.1, dumps p.2))).map Prod.fst).Nodup := by
      rw [List.map_map]
      have : (Prod.fst ∘ fun p : String × Json => (p.1, dumps p.2)) = Prod.fst := by
        funext p
        rfl
      rw [this]
      exact hnd
    rw [sortKV_eq_of_perm _ _ hpm hndm]

/-- Claim C8: `canonical_ruleset_sha256` depends only on the parsed JSON
value: two rulesets whose objects differ only in key order (same semantic
content, at any nesting depth) hash to the same hex digest, because the
serialization sorts keys recursively before hashing. -/
theorem canonical_hash_key_order_invariant :
    ∀ (H : List Nat → List Nat) (a b : Json), JsonKeyPerm a b →
    canonical_ruleset_sha256 H a = canonical_ruleset_sha256 H b := by
  intro H a b h
  unfold canonical_ruleset_sha256
  rw [dumps_eq_of_keyPerm a b h]

/-- Witness for `canonical_hash_key_order_invariant`: two concrete nested
objects differing only in member order, inside and out. -/
theorem canonical_hash_key_order_invariant_witness :
    canonical_ruleset_sha256 (fun l => l)
      (Json.obj [("b", Json.num 1),
        ("a", Json.obj [("y", Json.num 2), ("x", Json.str "v")])]) =
    canonical_ruleset_sha256 (fun l => l)
      (Json.obj [("a", Json.obj [("x", Json.str "v"), ("y", Json.num 2)]),
        ("b", Json.num 1)]) := by
  apply canonical_hash_key_order_invariant
  have hinner : JsonKeyPerm (Json.obj [("y", Json.num 2), ("x", Json.str "v")])
      (Json.obj [("x", Json.str "v"), ("y", Json.num 2)]) := by
    refine @JsonKeyPerm.obj [("y", Json.num 2), ("x", Json.str "v")]
      [("y", Json.num 2), ("x", Json.str "v")]
      [("x", Json.str "v"), ("y", Json.num 2)]
      (by decide) rfl ?_ ?_ ?_
    · intro i hi hj
      simp only [List.length_cons, List.length_nil] at hi
      interval_cases i <;> rfl
    · intro i hi hj
      simp only [List.length_cons, List.length_nil] at hi
      interval_cases i
      · exact JsonKeyPerm.num 2
      · exact JsonKeyPerm.str "v"
    · exact List.Perm.swap _ _ _
  refine @JsonKeyPerm.obj
    [("b", Json.num 1), ("a", Json.obj [("y", Json.num 2), ("x", Json.str "v")])]
    [("b", Json.num 1), ("a", Json.obj [("x", Json.str "v"), ("y", Json.num 2)])]
    [("a", Json.obj [("x", Json.str "v"), ("y", Json.num 2)]), ("b", Json.num 1)]
    (by decide) rfl ?_ ?_ ?_
  · intro i hi hj
    simp only [List.length_cons, List.length_nil] at hi
    interval_cases i <;> rfl
  · intro i hi hj
    simp only [List.length_cons, List.length_nil] at hi
    interval_cases i
    · exact JsonKeyPerm.num 1
    · exact hinner
  · exact List.Perm.swap _ _ _

/-- Claim C5, counterexample: a directive with an integer id and an
explicitly empty checks list (`"checks": []`) has zero checks, yet
`validate_output` emits no Finding for it at all — `isinstance([], list)`
holds, so the advisory guard is skipped and the loop over the empty list
produces nothing.  The original claim promised exactly one advisory
Finding for every zero-check directive. -/
theorem empty_checks_silently_ignored_counterexample :
    directiveChecks (Json.obj [("id", Json.num 8),
      ("validation_criteria", Json.obj [("checks", Json.arr [])])]) = some [] ∧
    validate_output reNone none "x"
      (Json.obj [("directives", Json.arr [Json.obj [("id", Json.num 8),
        ("validation_criteria", Json.obj [("checks", Json.arr [])])]])]) false =
      .ok [] := by
  exact ⟨rfl, rfl⟩

/-- Claim C5 (amended): a directive with an integer id whose checks value
is missing or not a list yields exactly one advisory Finding ("Directive
has no machine-checkable checks.") in its position in the output; but a
directive whose checks value is an explicitly empty list contributes no
Finding at all — such a directive IS silently ignored. -/
theorem zero_checks_directive_findings :
    (∀ (re : ReSearch) (sm : Option SemanticMatcher) (text : String) (incl : Bool)
        (rs : Json) (pre post : List Json) (d : Json) (did : Int),
      get_directives rs = .ok (pre ++ d :: post) →
      directiveIntId d = some did →
      directiveChecks d = none →
      validate_output re sm text rs incl =
        (match mapMExcept (processDirective re sm text incl) pre,
               mapMExcept (processDirective re sm text incl) post with
         | .ok fpre, .ok fpost =>
           .ok (fpre.flatten ++
             (⟨did, directiveTitle d did, "advisory",
               "Directive has no machine-checkable checks."⟩ :: fpost.flatten))
         | .error e, _ => .error e
         | .ok _, .error e => .error e)) ∧
    (∀ (re : ReSearch) (sm : Option SemanticMatcher) (text : String) (incl : Bool)
        (rs : Json) (pre post : List Json) (d : Json) (did : Int),
      get_directives rs = .ok (pre ++ d :: post) →
      directiveIntId d = some did →
      directiveChecks d = some [] →
      validate_output re sm text rs incl =
        (match mapMExcept (processDirective re sm text incl) pre,
               mapMExcept (processDirective re sm text incl) post with
         | .ok fpre, .ok fpost => .ok (fpre.flatten ++ fpost.flatten)
         | .error e, _ => .error e
         | .ok _, .error e => .error e)) := by
  constructor
  · exact no_checks_directive_one_advisory
  · intro re sm text incl rs pre post d did hds hid hchecks
    have hd : processDirective re sm text incl d = .ok [] := by
      rw [processDirective_eq re sm text incl d did [] hid hchecks]
      rfl
    unfold validate_output
    rw [hds]
    dsimp only
    rw [mapMExcept_append]
    cases hpre : mapMExcept (processDirective re sm text incl) pre with
    | error e => rfl
    | ok fpre =>
      simp only [mapMExcept, hd]
      cases hpost : mapMExcept (processDirective re sm text incl) post with
      | error e => rfl
      | ok fpost => simp [List.flatten_append]

/-- Witness for `zero_checks_directive_findings`: a missing checks value
yields the single advisory, an empty checks list yields nothing. -/
theorem zero_checks_directive_findings_witness :
    validate_output reNone none "x"
      (Json.obj [("directives", Json.arr [Json.obj [("id", Json.num 4)]])]) false =
      .ok [⟨4, "Directive 4", "advisory", "Directive has no machine-checkable checks."⟩] ∧
    validate_output reNone none "x"
      (Json.obj [("directives", Json.arr [Json.obj [("id", Json.num 8),
        ("validation_criteria", Json.obj [("checks", Json.arr [])])]])]) false =
      .ok [] := by
  constructor
  · have h := zero_checks_directive_findings.1 reNone none "x" false
      (Json.obj [("directives", Json.arr [Json.obj [("id", Json.num 4)]])])
      [] [] (Json.obj [("id", Json.num 4)]) 4 rfl rfl rfl
    simpa [mapMExcept] using h
  · have h := zero_checks_directive_findings.2 reNone none "x" false
      (Json.obj [("directives", Json.arr [Json.obj [("id", Json.num 8),
        ("validation_criteria", Json.obj [("checks", Json.arr [])])]])])
      [] [] (Json.obj [("id", Json.num 8),
        ("validation_criteria", Json.obj [("checks", Json.arr [])])]) 8 rfl rfl rfl
    simpa [mapMExcept] using h
